import Mathlib

/-!
Verification development for the cpputils repository (lockfree_accum.h,
reflist.h, refptr.h, util.h). Each C++ component is shallowly embedded as
executable Lean definitions, translated directly from the source, and the
spec's claims are settled as theorems about those definitions.
-/

namespace Spec2Proof

/-! ## Accumulator: state codes (lockfree_accum.h, lines 29-50)

The state word is a single byte whose codes 0-14 (except 7) encode the joint
status of the two buffers. `decodeState` is the table from the enum names
(slot 0 status first, slot 1 status second), as also given in spec section 3.
-/

inductive SlotStatus where
  | empty
  | accum
  | valid
  | report
deriving DecidableEq, Fintype

/-- Joint status table for the two slots, from the enum in lockfree_accum.h
(code 7 and codes above 14 are not legal states). -/
def decodeState : Nat → Option (SlotStatus × SlotStatus)
  | 0 => some (.empty, .empty)   -- EMPTY_EMPTY
  | 1 => some (.accum, .empty)   -- ACCUM_EMPTY
  | 2 => some (.valid, .empty)   -- VALID_EMPTY
  | 3 => some (.valid, .accum)   -- VALID_ACCUM
  | 4 => some (.report, .empty)  -- REPORT_EMPTY
  | 5 => some (.report, .accum)  -- REPORT_ACCUM
  | 6 => some (.report, .valid)  -- REPORT_VALID
  | 8 => some (.empty, .empty)   -- EMPTY_EMPTY_ALT
  | 9 => some (.empty, .accum)   -- EMPTY_ACCUM
  | 10 => some (.empty, .valid)  -- EMPTY_VALID
  | 11 => some (.accum, .valid)  -- ACCUM_VALID
  | 12 => some (.empty, .report) -- EMPTY_REPORT
  | 13 => some (.accum, .report) -- ACCUM_REPORT
  | 14 => some (.valid, .report) -- VALID_REPORT
  | _ => none

/-- The 14 legal state codes (the "13-code set" of the spec, which counts the
two EMPTY_EMPTY encodings 0 and 8 once). -/
def legalCodes : List Nat := [0, 1, 2, 3, 4, 5, 6, 8, 9, 10, 11, 12, 13, 14]

/-- Status of one slot (0 or 1) in state code `s`. -/
def slotStatus (s : Nat) (slot : Nat) : Option SlotStatus :=
  (decodeState s).map (fun p => if slot = 0 then p.1 else p.2)

/-- States asserted against on entry to accum() ("must not already be
accumulating", lockfree_accum.h lines 58-60). -/
def accumStates : List Nat := [1, 3, 5, 9, 11, 13]

/-- States asserted against on entry to report() and required on entry to
reset() ("must (not) be reporting", lines 195-197 and 230-232). -/
def reportStates : List Nat := [4, 5, 6, 12, 13, 14]

/-! ## Accumulator: sequential model (lockfree_accum.h, lines 53-246)

The user-supplied buffer class `Buf` provides four operations
(copy-assignment is modelled as plain value copy, as the spec's Buf
contract requires). `AccumState` holds the state word and the two buffers
(`m_bufs[2]` plus `m_state`).

`accumSeq`, `reportSeq`, `resetSeq` are the three member functions executed
with no concurrent interference: every compare-exchange whose expected value
is the value just loaded succeeds. Failed assertions are modelled as `none`.
-/

structure BufOps (β ν ρ : Type) where
  accum : β → ν → β
  report : β → ρ
  reset : β → β

structure AccumState (β : Type) where
  s : Nat
  buf0 : β
  buf1 : β
deriving DecidableEq

def getBuf (st : AccumState β) (i : Nat) : β :=
  if i = 0 then st.buf0 else st.buf1

def setBuf (st : AccumState β) (i : Nat) (b : β) : AccumState β :=
  if i = 0 then { st with buf0 := b } else { st with buf1 := b }

/-- accum(val), sequential execution (lines 53-188). Regime A: one slot
VALID, the other REPORT; regime B: one slot VALID, the other EMPTY; regime
C: no VALID slot. The slot indices are computed exactly as in the source:
`valid_idx = (state >> 3) ^ 1` in regime A, `valid_idx = state >> 3` in
regime B, `empty_idx = (state >> 3) ^ 1` in regime C. -/
def accumSeq (ops : BufOps β ν ρ) (v : ν) (st : AccumState β) :
    Option (AccumState β) :=
  let s := st.s
  if s ∈ accumStates then
    none -- entry assertion: must not already be accumulating
  else if s = 6 ∨ s = 14 then
    -- regime A: CAS s -> s-1, accumulate into the valid slot, then ++
    let vi := (s >>> 3) ^^^ 1
    let st := setBuf st vi (ops.accum (getBuf st vi) v)
    some { st with s := (s - 1) + 1 }
  else if s = 2 ∨ s = 10 then
    -- regime B: CAS s -> s+1, reset / copy-assign / accumulate into the
    -- empty slot, then CAS (s+1) -> ((s+1)-1) ^ 8
    let vi := s >>> 3
    let ei := vi ^^^ 1
    let _discarded := ops.reset (getBuf st ei)
    let b := getBuf st vi -- copy-assignment overwrites the reset buffer
    let st := setBuf st ei (ops.accum b v)
    some { st with s := ((s + 1) - 1) ^^^ 8 }
  else if s = 0 ∨ s = 4 ∨ s = 8 ∨ s = 12 then
    -- regime C: ++, reset and accumulate into bufs[(s >> 3) ^ 1], ++
    let ei := (s >>> 3) ^^^ 1
    let st := setBuf st ei (ops.accum (ops.reset (getBuf st ei)) v)
    some { st with s := (s + 1) + 1 }
  else
    none -- assert(false)

/-- report(), sequential execution (lines 190-223). On success returns the
new state together with `some` of the reported value of `bufs[state >> 3]`;
with no valid buffer returns the unchanged state and `none`. -/
def reportSeq (ops : BufOps β ν ρ) (st : AccumState β) :
    Option (AccumState β × Option ρ) :=
  let s := st.s
  if s ∈ reportStates then
    none -- entry assertion: must not already be reporting
  else if s = 2 ∨ s = 3 ∨ s = 10 ∨ s = 11 then
    -- CAS s -> s+2, then report from bufs[state >> 3]
    let vi := s >>> 3
    some ({ st with s := s + 2 }, some (ops.report (getBuf st vi)))
  else
    some (st, none) -- no valid buffer - return null

/-- reset() (lines 225-246): just `m_state ^= 12`. -/
def resetSeq (st : AccumState β) : Option (AccumState β) :=
  if st.s ∈ reportStates then
    some { st with s := st.s ^^^ 12 }
  else
    none -- entry assertion: must be reporting

/-- Integer-sum buffer (the spec's "accumulator of integer sums"):
accum adds, report returns the sum, reset returns to zero. -/
def sumOps : BufOps Int Int Int :=
  { accum := fun b v => b + v, report := fun b => b, reset := fun _ => 0 }

/-- History buffer (the shape of test_lockfree_accum.cpp's string buffer):
accum appends the value, report returns the list, reset clears it. The
reported list shows exactly which accumulated values the snapshot counts. -/
def listOps : BufOps (List Nat) Nat (List Nat) :=
  { accum := fun b v => b ++ [v], report := fun b => b, reset := fun _ => [] }

/-- A freshly constructed accumulator: state EMPTY_EMPTY, both buffers
default-initialized. -/
def freshAccum (b : β) : AccumState β := ⟨0, b, b⟩

/-- The slot that the state-word increment from code `s` marks as ACCUM
(i.e. the slot whose status is ACCUM in code `s + 1`), per the table. -/
def accumSlotOf (s : Nat) : Option Nat :=
  match decodeState s with
  | some (.accum, _) => some 0
  | some (_, .accum) => some 1
  | _ => none

/-- The buffer index regime C writes to, exactly as computed by the source
(`empty_idx = (state >> 3) ^ 1`, line 166). -/
def regimeCWriteIdx (s : Nat) : Nat := (s >>> 3) ^^^ 1

/-- Codes with no VALID slot (the set named by the spec's report() rule). -/
def noValidStates : List Nat := [0, 1, 4, 5, 8, 9, 12, 13]

/-- The sequential run of spec scenario "Accum #1": accum(1); accum(2);
accum(3); report(); reset(); accum(4); report() over the integer-sum
buffer, collecting the two reported values. -/
def accumScenario1 : Option (Int × Int) :=
  (accumSeq sumOps 1 (freshAccum 0)).bind fun st =>
  (accumSeq sumOps 2 st).bind fun st =>
  (accumSeq sumOps 3 st).bind fun st =>
  (reportSeq sumOps st).bind fun (st, r1) =>
  r1.bind fun r1 =>
  (resetSeq st).bind fun st =>
  (accumSeq sumOps 4 st).bind fun st =>
  (reportSeq sumOps st).bind fun (_, r2) =>
  r2.bind fun r2 =>
  some (r1, r2)

/-- A fully sequential run for claim C1: from a fresh accumulator,
`accum(5)` runs to completion, no report intervenes, then `report()` is
called. Uses the history buffer, so the returned snapshot lists exactly the
accumulated values it counts. -/
def accumLostRun : Option (AccumState (List Nat) × Option (List Nat)) :=
  (accumSeq listOps 5 (freshAccum [])).bind (reportSeq listOps)

/-! ## Accumulator: concurrent control model (lockfree_accum.h, lines 53-246)

A small-step interleaving semantics of one producer repeatedly running
`accum` against one consumer alternating `report` / `reset`. Only the
atomic accesses to the state word and the (labelled) buffer writes are
modelled; each load / compare-exchange / fetch-add / fetch-xor is one step,
and the local control flow between two shared accesses is folded into the
step performing the later access. Buffer contents are irrelevant to the
state-word claims, so a buffer operation is recorded as a write label
(the index of the buffer the code writes) rather than a value.

Producer locations, following accum():
* `idle`: before `m_state.load()`.
* `casA l`: loaded `l ∈ {6,14}`; about to run the regime A CMPXCHG.
* `bufA l`: regime A CMPXCHG succeeded; about to accum into
  `m_bufs[(l >> 3) ^ 1]`.
* `incA`: about to run regime A's closing `++m_state`.
* `casB l`: dispatched on `l ∈ {2,10}`; about to run the regime B CMPXCHG.
* `bufB l`: claimed the empty slot; about to reset/copy/accum
  `m_bufs[(l >> 3) ^ 1]`.
* `casB2 l`: about to run regime B's second CMPXCHG (expected `l + 1`).
* `decB`: that CMPXCHG failed; about to run `--m_state`.
* `incC1 l`: dispatched on `l ∈ {0,4,8,12}`; about to run regime C's first
  `++m_state`.
* `bufC l`: about to reset and accum into `m_bufs[(l >> 3) ^ 1]`.
* `incC2`: about to run regime C's closing `++m_state`.
* `stuck`: an assertion failed; the thread makes no further steps.

Consumer locations, following report() / reset():
* `idle`: before report()'s `m_state.load()`.
* `casR l`: loaded `l ∈ {2,3,10,11}`; about to run report()'s CMPXCHG.
* `hold k`: report() succeeded on slot `k`; holding the snapshot, the only
  remaining step is reset()'s `m_state ^= 12`.

A failed assertion with no preceding shared write is modelled as having no
outgoing step.
-/

inductive PLoc where
  | idle
  | casA (l : Nat)
  | bufA (l : Nat)
  | incA
  | casB (l : Nat)
  | bufB (l : Nat)
  | casB2 (l : Nat)
  | decB
  | incC1 (l : Nat)
  | bufC (l : Nat)
  | incC2
  | stuck
deriving DecidableEq

inductive CLoc where
  | idle
  | casR (l : Nat)
  | hold (k : Nat)
deriving DecidableEq

structure Config where
  s : Nat
  p : PLoc
  c : CLoc
deriving DecidableEq

/-- Regime C entry states. -/
def regimeCStates : List Nat := [0, 4, 8, 12]

/-- Fall-through after the regime A check or a failed regime A CMPXCHG:
the code next tests the regime B condition, then the regime C condition,
and otherwise hits `assert(false)`. -/
def dispatchB (s : Nat) : Option PLoc :=
  if s = 2 ∨ s = 10 then some (.casB s)
  else if s ∈ regimeCStates then some (.incC1 s)
  else none

/-- Fall-through after a failed regime B CMPXCHG: only the regime C
condition is tested. -/
def dispatchC (s : Nat) : Option PLoc :=
  if s ∈ regimeCStates then some (.incC1 s) else none

/-- One producer step: the next configuration paired with the index of the
buffer the step writes, if any. -/
def pSteps (cfg : Config) : List (Config × Option Nat) :=
  match cfg.p with
  | .idle =>
    -- load the state word; dispatch on the regime (local control)
    let s := cfg.s
    if s ∈ accumStates then [] -- entry assertion fails
    else if s = 6 ∨ s = 14 then [({ cfg with p := .casA s }, none)]
    else
      match dispatchB s with
      | some pl => [({ cfg with p := pl }, none)]
      | none => [] -- assert(false)
  | .casA l =>
    if cfg.s = l then [({ cfg with s := l - 1, p := .bufA l }, none)]
    else
      match dispatchB cfg.s with
      | some pl => [({ cfg with p := pl }, none)]
      | none => []
  | .bufA l => [({ cfg with p := .incA }, some ((l >>> 3) ^^^ 1))]
  | .incA => [({ cfg with s := cfg.s + 1, p := .idle }, none)]
  | .casB l =>
    if cfg.s = l then [({ cfg with s := l + 1, p := .bufB l }, none)]
    else
      match dispatchC cfg.s with
      | some pl => [({ cfg with p := pl }, none)]
      | none => []
  | .bufB l => [({ cfg with p := .casB2 l }, some ((l >>> 3) ^^^ 1))]
  | .casB2 l =>
    if cfg.s = l + 1 then [({ cfg with s := l ^^^ 8, p := .idle }, none)]
    else [({ cfg with p := .decB }, none)]
  | .decB =>
    -- `state = --m_state` happens unconditionally; the assertion and the
    -- regime C condition are then checked on the decremented value
    let s' := cfg.s - 1
    match dispatchC s' with
    | some pl => [({ cfg with s := s', p := pl }, none)]
    | none => [({ cfg with s := s', p := .stuck }, none)]
  | .incC1 l => [({ cfg with s := cfg.s + 1, p := .bufC l }, none)]
  | .bufC l => [({ cfg with p := .incC2 }, some ((l >>> 3) ^^^ 1))]
  | .incC2 => [({ cfg with s := cfg.s + 1, p := .idle }, none)]
  | .stuck => []

/-- One consumer step. -/
def cSteps (cfg : Config) : List (Config × Option Nat) :=
  match cfg.c with
  | .idle =>
    -- report(): load the state word
    let s := cfg.s
    if s ∈ reportStates then [] -- entry assertion fails
    else if s = 2 ∨ s = 3 ∨ s = 10 ∨ s = 11 then
      [({ cfg with c := .casR s }, none)]
    else [] -- report() returns null; consumer state is unchanged
  | .casR l =>
    if cfg.s = l then
      [({ cfg with s := l + 2, c := .hold (l >>> 3) }, none)]
    else if cfg.s = 2 ∨ cfg.s = 3 ∨ cfg.s = 10 ∨ cfg.s = 11 then
      [({ cfg with c := .casR cfg.s }, none)] -- retry the loop
    else [({ cfg with c := .idle }, none)] -- exit loop, return null
  | .hold _ => [({ cfg with s := cfg.s ^^^ 12, c := .idle }, none)]

/-- All steps of the interleaved system. -/
def steps (cfg : Config) : List (Config × Option Nat) :=
  pSteps cfg ++ cSteps cfg

/-- A freshly constructed accumulator with both threads idle. -/
def initConfig : Config := ⟨0, .idle, .idle⟩

def stepRel (a b : Config) : Prop := ∃ w, (b, w) ∈ steps a

/-- Configurations reachable from the fresh accumulator under any
interleaving that respects the structural preconditions (single producer,
single consumer alternating report and reset). -/
def Reachable (c : Config) : Prop :=
  Relation.ReflTransGen stepRel initConfig c

/-- The full set of configurations reachable from `initConfig`, computed as
the least fixpoint of `steps` (verified below: it contains `initConfig` and
is closed under `steps`). -/
def reachSet : List Config :=
  [Config.mk 0 PLoc.idle CLoc.idle,
    Config.mk 0 (PLoc.incC1 0) CLoc.idle,
    Config.mk 1 (PLoc.bufC 0) CLoc.idle,
    Config.mk 1 PLoc.incC2 CLoc.idle,
    Config.mk 2 PLoc.idle CLoc.idle,
    Config.mk 2 (PLoc.casB 2) CLoc.idle,
    Config.mk 2 PLoc.idle (CLoc.casR 2),
    Config.mk 3 (PLoc.bufB 2) CLoc.idle,
    Config.mk 2 (PLoc.casB 2) (CLoc.casR 2),
    Config.mk 4 PLoc.idle (CLoc.hold 0),
    Config.mk 3 (PLoc.casB2 2) CLoc.idle,
    Config.mk 3 (PLoc.bufB 2) (CLoc.casR 3),
    Config.mk 3 (PLoc.bufB 2) (CLoc.casR 2),
    Config.mk 4 (PLoc.casB 2) (CLoc.hold 0),
    Config.mk 4 (PLoc.incC1 4) (CLoc.hold 0),
    Config.mk 8 PLoc.idle CLoc.idle,
    Config.mk 10 PLoc.idle CLoc.idle,
    Config.mk 3 (PLoc.casB2 2) (CLoc.casR 3),
    Config.mk 5 (PLoc.bufB 2) (CLoc.hold 0),
    Config.mk 3 (PLoc.casB2 2) (CLoc.casR 2),
    Config.mk 8 (PLoc.casB 2) CLoc.idle,
    Config.mk 5 (PLoc.bufC 4) (CLoc.hold 0),
    Config.mk 8 (PLoc.incC1 4) CLoc.idle,
    Config.mk 8 (PLoc.incC1 8) CLoc.idle,
    Config.mk 10 (PLoc.casB 10) CLoc.idle,
    Config.mk 10 PLoc.idle (CLoc.casR 10),
    Config.mk 10 PLoc.idle (CLoc.casR 3),
    Config.mk 5 (PLoc.casB2 2) (CLoc.hold 0),
    Config.mk 9 (PLoc.bufB 2) CLoc.idle,
    Config.mk 10 PLoc.idle (CLoc.casR 2),
    Config.mk 5 PLoc.incC2 (CLoc.hold 0),
    Config.mk 9 (PLoc.bufC 4) CLoc.idle,
    Config.mk 9 (PLoc.bufC 8) CLoc.idle,
    Config.mk 11 (PLoc.bufB 10) CLoc.idle,
    Config.mk 10 (PLoc.casB 10) (CLoc.casR 10),
    Config.mk 12 PLoc.idle (CLoc.hold 1),
    Config.mk 10 (PLoc.casB 10) (CLoc.casR 3),
    Config.mk 5 PLoc.decB (CLoc.hold 0),
    Config.mk 9 (PLoc.casB2 2) CLoc.idle,
    Config.mk 10 (PLoc.casB 10) (CLoc.casR 2),
    Config.mk 6 PLoc.idle (CLoc.hold 0),
    Config.mk 9 PLoc.incC2 CLoc.idle,
    Config.mk 11 (PLoc.casB2 10) CLoc.idle,
    Config.mk 11 (PLoc.bufB 10) (CLoc.casR 11),
    Config.mk 11 (PLoc.bufB 10) (CLoc.casR 10),
    Config.mk 12 (PLoc.casB 10) (CLoc.hold 1),
    Config.mk 12 (PLoc.incC1 12) (CLoc.hold 1),
    Config.mk 11 (PLoc.bufB 10) (CLoc.casR 3),
    Config.mk 9 PLoc.decB CLoc.idle,
    Config.mk 11 (PLoc.bufB 10) (CLoc.casR 2),
    Config.mk 6 (PLoc.casA 6) (CLoc.hold 0),
    Config.mk 11 (PLoc.casB2 10) (CLoc.casR 11),
    Config.mk 13 (PLoc.bufB 10) (CLoc.hold 1),
    Config.mk 11 (PLoc.casB2 10) (CLoc.casR 10),
    Config.mk 0 (PLoc.casB 10) CLoc.idle,
    Config.mk 13 (PLoc.bufC 12) (CLoc.hold 1),
    Config.mk 0 (PLoc.incC1 12) CLoc.idle,
    Config.mk 11 (PLoc.casB2 10) (CLoc.casR 3),
    Config.mk 11 (PLoc.casB2 10) (CLoc.casR 2),
    Config.mk 5 (PLoc.bufA 6) (CLoc.hold 0),
    Config.mk 10 (PLoc.casA 6) CLoc.idle,
    Config.mk 2 PLoc.idle (CLoc.casR 11),
    Config.mk 13 (PLoc.casB2 10) (CLoc.hold 1),
    Config.mk 1 (PLoc.bufB 10) CLoc.idle,
    Config.mk 2 PLoc.idle (CLoc.casR 10),
    Config.mk 13 PLoc.incC2 (CLoc.hold 1),
    Config.mk 1 (PLoc.bufC 12) CLoc.idle,
    Config.mk 2 PLoc.idle (CLoc.casR 3),
    Config.mk 5 PLoc.incA (CLoc.hold 0),
    Config.mk 9 (PLoc.bufA 6) CLoc.idle,
    Config.mk 10 (PLoc.casA 6) (CLoc.casR 10),
    Config.mk 2 (PLoc.casB 2) (CLoc.casR 11),
    Config.mk 13 PLoc.decB (CLoc.hold 1),
    Config.mk 1 (PLoc.casB2 10) CLoc.idle,
    Config.mk 2 (PLoc.casB 2) (CLoc.casR 10),
    Config.mk 14 PLoc.idle (CLoc.hold 1),
    Config.mk 2 (PLoc.casB 2) (CLoc.casR 3),
    Config.mk 9 PLoc.incA CLoc.idle,
    Config.mk 12 (PLoc.casA 6) (CLoc.hold 1),
    Config.mk 3 (PLoc.bufB 2) (CLoc.casR 11),
    Config.mk 1 PLoc.decB CLoc.idle,
    Config.mk 3 (PLoc.bufB 2) (CLoc.casR 10),
    Config.mk 14 (PLoc.casA 14) (CLoc.hold 1),
    Config.mk 0 (PLoc.casA 6) CLoc.idle,
    Config.mk 3 (PLoc.casB2 2) (CLoc.casR 11),
    Config.mk 3 (PLoc.casB2 2) (CLoc.casR 10),
    Config.mk 13 (PLoc.bufA 14) (CLoc.hold 1),
    Config.mk 2 (PLoc.casA 14) CLoc.idle,
    Config.mk 10 PLoc.idle (CLoc.casR 11),
    Config.mk 13 PLoc.incA (CLoc.hold 1),
    Config.mk 1 (PLoc.bufA 14) CLoc.idle,
    Config.mk 2 (PLoc.casA 14) (CLoc.casR 2),
    Config.mk 10 (PLoc.casB 10) (CLoc.casR 11),
    Config.mk 1 PLoc.incA CLoc.idle,
    Config.mk 4 (PLoc.casA 14) (CLoc.hold 0),
    Config.mk 8 (PLoc.casA 14) CLoc.idle]

/-- Slot index recorded in a `hold` consumer location, if any. -/
def holdSlot : CLoc → Option Nat
  | .hold k => some k
  | _ => none

/-- A concrete reachable configuration with the consumer holding a
snapshot of slot 0: reached by one complete accum (regime C from the fresh
state) followed by a successful report. -/
def holdExample : Config := Config.mk 4 PLoc.idle (CLoc.hold 0)

/-- States report() may observe on entry given the single-consumer rule
(no slot is in REPORT while the consumer is not holding a snapshot). -/
def reportEntryStates : List Nat := [0, 1, 2, 3, 8, 9, 10, 11]

/-! ## reflist (reflist.h)

`reflist` holds a forward vector `m_fwd_items` and a reverse vector
`m_rev_items` (stored in reverse order) of nullable smart pointers; a slot
is modelled as `Option α`. Logical index `i` maps to `m_fwd_items.at(i)`
for `i >= 0` and to `m_rev_items.at(-1 - i)` for `i < 0` (reflist.h lines
252-255). `at()` is only ever called with indices inside the logical
bounds; out-of-range indices are modelled as null.

The iterator (reflist.h lines 66-161) carries the list bounds captured at
construction (`m_start`, `m_end`), the current index `m_idx`, the
direction `m_dir`, and the cached value `m_val`. `find_valid` is the
null-skipping scan loop; its two `for` loops are modelled with an explicit
fuel equal to the exact number of remaining loop iterations, so the
definitions compute. `INT_MAX - 1` / `INT_MIN + 1` are the past-end and
pre-start sentinels.
-/

def intMax : Int := 2147483647
def intMin : Int := -2147483648

structure RList (α : Type) where
  fwdItems : List (Option α)
  revItems : List (Option α) -- in reverse order
  cachedSize : Int
deriving DecidableEq

def startIdx (l : RList α) : Int := -(l.revItems.length : Int)

def endIdx (l : RList α) : Int := (l.fwdItems.length : Int)

/-- `at(idx)` (reflist.h lines 252-255). -/
def atIdx (l : RList α) (idx : Int) : Option α :=
  if 0 ≤ idx then l.fwdItems.getD idx.toNat none
  else l.revItems.getD (-1 - idx).toNat none

structure RIter (α : Type) where
  mStart : Int
  mEnd : Int
  mIdx : Int
  mDir : Int
  mVal : Option α
deriving DecidableEq

/-- The `dir > 0` loop of find_valid: scan from `idx` upward for the first
non-null slot below `stop`; park at `INT_MAX - 1` if none. `fuel` is the
number of remaining iterations (`(stop - idx).toNat` at every call). -/
def scanFwd (l : RList α) (stop : Int) : Nat → Int → Int × Option α
  | 0, _ => (intMax - 1, none)
  | fuel + 1, idx =>
    if idx < stop then
      match atIdx l idx with
      | some x => (idx, some x)
      | none => scanFwd l stop fuel (idx + 1)
    else (intMax - 1, none)

/-- The `dir <= 0` loop of find_valid: scan from `idx` downward for the
first non-null slot at or above `start`; park at `INT_MIN + 1` if none. -/
def scanBwd (l : RList α) (start : Int) : Nat → Int → Int × Option α
  | 0, _ => (intMin + 1, none)
  | fuel + 1, idx =>
    if start ≤ idx then
      match atIdx l idx with
      | some x => (idx, some x)
      | none => scanBwd l start fuel (idx - 1)
    else (intMin + 1, none)

/-- find_valid(dir) (reflist.h lines 133-160): clamp the index into the
captured window, then scan in direction `dir`. -/
def findValid (l : RList α) (dir : Int) (it : RIter α) : RIter α :=
  if dir > 0 then
    let i0 := max it.mIdx it.mStart
    let r := scanFwd l it.mEnd ((it.mEnd - i0).toNat) i0
    { it with mIdx := r.1, mVal := r.2 }
  else
    let i0 := min it.mIdx (it.mEnd - 1)
    let r := scanBwd l it.mStart ((i0 - it.mStart + 1).toNat) i0
    { it with mIdx := r.1, mVal := r.2 }

/-- The iterator constructor (reflist.h lines 126-131): capture the list
bounds, then find_valid(m_dir). -/
def mkIter (l : RList α) (idx dir : Int) : RIter α :=
  findValid l dir ⟨startIdx l, endIdx l, idx, dir, none⟩

def beginIter (l : RList α) : RIter α := mkIter l (startIdx l) 1

def endIter (l : RList α) : RIter α := mkIter l (endIdx l) 1

def rbeginIter (l : RList α) : RIter α := mkIter l (endIdx l - 1) (-1)

def rendIter (l : RList α) : RIter α := mkIter l (startIdx l - 1) (-1)

/-- operator++ (reflist.h lines 93-99): `m_idx += m_dir; find_valid(m_dir)`. -/
def iterInc (l : RList α) (it : RIter α) : RIter α :=
  findValid l it.mDir { it with mIdx := it.mIdx + it.mDir, mVal := none }

/-- operator-- (reflist.h lines 101-107): `m_idx -= m_dir; find_valid(m_dir)`.
Note that the source passes `m_dir` (not `-m_dir`) to find_valid here. -/
def iterDec (l : RList α) (it : RIter α) : RIter α :=
  findValid l it.mDir { it with mIdx := it.mIdx - it.mDir, mVal := none }

/-- append (reflist.h lines 218-222): push onto the forward vector. -/
def appendItem (l : RList α) (p : Option α) : RList α :=
  { l with fwdItems := l.fwdItems ++ [p] }

/-- prepend (reflist.h lines 232-236): push onto the reverse vector. -/
def prependItem (l : RList α) (p : Option α) : RList α :=
  { l with revItems := l.revItems ++ [p] }

def setIdx (l : RList α) (idx : Int) (p : Option α) : RList α :=
  if 0 ≤ idx then { l with fwdItems := l.fwdItems.set idx.toNat p }
  else { l with revItems := l.revItems.set (-1 - idx).toNat p }

/-- Removal of the element at a logical index (iter::remove, reflist.h
lines 111-119, moves the pointer out of the slot, leaving it null). -/
def removeAt (l : RList α) (idx : Int) : RList α := setIdx l idx none

/-- last_unref (reflist.h lines 257-265): if the logical length grew past
`m_cached_size`, strip the null slots from both vectors (util::remove,
util.h lines 42-47, the erase-remove idiom: removes every element equal to
nullptr, keeping the order of the rest) and record the new logical
length. -/
def lastUnref (l : RList α) : RList α :=
  if endIdx l - startIdx l > l.cachedSize then
    let l2 : RList α :=
      { l with fwdItems := l.fwdItems.filter Option.isSome,
               revItems := l.revItems.filter Option.isSome }
    { l2 with cachedSize := endIdx l2 - startIdx l2 }
  else l

/-- The logical contents of the list: the non-null slots from lowest to
highest logical index. -/
def elems (l : RList α) : List α :=
  (l.revItems.reverse ++ l.fwdItems).reduceOption

/-- A full forward iteration: starting from begin(), repeatedly yield the
current element and step with operator++ while the iterator is valid
(`fuel` bounds the number of yielded elements). -/
def collectIter (l : RList α) : Nat → RIter α → List α
  | 0, _ => []
  | fuel + 1, it =>
    match it.mVal with
    | none => []
    | some x => x :: collectIter l fuel (iterInc l it)

def traceFwd (l : RList α) (fuel : Nat) : List α :=
  collectIter l fuel (beginIter l)

/-- A mutation step available while iterators exist: append, prepend, or
remove (null out) an element. -/
inductive ListOp (α : Type) where
  | append (p : Option α)
  | prepend (p : Option α)
  | removeAt (idx : Int)

def applyOp (l : RList α) : ListOp α → RList α
  | .append p => appendItem l p
  | .prepend p => prependItem l p
  | .removeAt i => removeAt l i

def applyOps (l : RList α) (ops : List (ListOp α)) : RList α :=
  ops.foldl applyOp l


/-! ## refptr (refptr.h)

`ref_base<T>::reset(p)` (refptr.h lines 66-78) is modelled over an
abstract heap: `counts` maps each target to its `m_refcount`. The order of
operations follows the source: first increment the count of a non-null
`p`, then decrement the count of the old pointee and invoke `last_unref`
exactly when the decrement reaches zero, then store `p`.
-/

structure ResetOutcome (τ : Type) where
  counts : τ → Nat
  stored : Option τ
  unrefFired : Option τ

def refReset [DecidableEq τ] (counts : τ → Nat) (mPtr p : Option τ) :
    ResetOutcome τ :=
  let c1 := match p with
    | some t => fun x => if x = t then counts t + 1 else counts x
    | none => counts
  match mPtr with
  | some o =>
    let c2 := fun x => if x = o then c1 o - 1 else c1 x
    { counts := c2, stored := p,
      unrefFired := if c2 o = 0 then some o else none }
  | none => { counts := c1, stored := p, unrefFired := none }

/-! ## weakptr / weak_target (refptr.h)

State of the weak-pointer system: `ptr` gives each weakptr record's
`m_ptr`; `weakList` gives, for each target, the ids hanging off its
`m_weak_head` in chain order (head first). The intrusive singly-linked
`next` chain is represented by that list: linking at the head is `cons`,
and the unlink walk (refptr.h lines 246-257, which finds this record and
splices it out) is `List.erase` of the record, which removes its unique
occurrence in a well-formed (duplicate-free) chain.
-/

structure WeakState (ω τ : Type) where
  ptr : ω → Option τ
  weakList : τ → List ω

/-- The unlink walk of weakptr::reset (refptr.h lines 246-257): if this
record is currently linked, splice it out of the old target's chain. -/
def weakUnlink [DecidableEq ω] [DecidableEq τ] (s : WeakState ω τ)
    (w : ω) : WeakState ω τ :=
  match s.ptr w with
  | some o =>
    { s with weakList :=
        fun t => if t = o then (s.weakList o).erase w else s.weakList t }
  | none => s

/-- weakptr::reset(p) (refptr.h lines 244-266): unlink from the old
target's list if currently linked; store `p`; if `p` is non-null, link at
the head of its list. -/
def weakReset [DecidableEq ω] [DecidableEq τ] (s : WeakState ω τ) (w : ω)
    (p : Option τ) : WeakState ω τ :=
  let s1 := weakUnlink s w
  match p with
  | some t =>
    { ptr := fun x => if x = w then some t else s1.ptr x,
      weakList := fun u => if u = t then w :: s1.weakList t
                           else s1.weakList u }
  | none => { s1 with ptr := fun x => if x = w then none else s1.ptr x }

/-- The loop of ~weak_target (refptr.h lines 306-311):
`while (m_weak_head) m_weak_head->reset();`. The fuel is the length of the
target's weak list (each reset of the head shortens it by one). -/
def destroyLoop [DecidableEq ω] [DecidableEq τ] (t : τ) :
    Nat → WeakState ω τ → WeakState ω τ
  | 0, s => s
  | fuel + 1, s =>
    match s.weakList t with
    | [] => s
    | w :: _ => destroyLoop t fuel (weakReset s w none)

/-- ~weak_target: run the reset loop to completion. -/
def destroyTarget [DecidableEq ω] [DecidableEq τ] (s : WeakState ω τ)
    (t : τ) : WeakState ω τ :=
  destroyLoop t (s.weakList t).length s

/-- Well-formedness of the intrusive weak lists: every chain is
duplicate-free, and a record hangs off target t exactly when its m_ptr is
t. Every state built by weakptr operations from the empty state satisfies
this (see the preservation clause of the C10 theorem). -/
def WFWeak (s : WeakState ω τ) : Prop :=
  (∀ t, (s.weakList t).Nodup) ∧
  (∀ t w, w ∈ s.weakList t ↔ s.ptr w = some t)

/-- The concrete list used to refute the direction claim for operator--:
logical contents [some 10, none, some 20] at indices 0, 1, 2. -/
def c6List : RList Nat := ⟨[some 10, none, some 20], [], 0⟩

/-- What a forward find_valid scan started at raw index `i0` inside the
window of `w` produces: either it parks at the first non-null position at
or after `max i0 w.mStart` and strictly before `w.mEnd`, caching that
slot, or every such position is null and it parks at the past-end
sentinel with a null cache. Window and direction are carried unchanged. -/
def FwdScanFrom (l : RList α) (w : RIter α) (i0 : Int) (res : RIter α) :
    Prop :=
  res.mStart = w.mStart ∧ res.mEnd = w.mEnd ∧ res.mDir = w.mDir ∧
  ((res.mVal.isSome ∧ max i0 w.mStart ≤ res.mIdx ∧ res.mIdx < w.mEnd ∧
      res.mVal = atIdx l res.mIdx ∧
      (∀ j, max i0 w.mStart ≤ j → j < res.mIdx → atIdx l j = none)) ∨
   (res.mVal = none ∧ res.mIdx = intMax - 1 ∧
      (∀ j, max i0 w.mStart ≤ j → j < w.mEnd → atIdx l j = none)))

/-- The backward analogue: park at the last non-null position at or below
`min i0 (w.mEnd - 1)` and at or above `w.mStart`, or at the pre-start
sentinel. -/
def BwdScanFrom (l : RList α) (w : RIter α) (i0 : Int) (res : RIter α) :
    Prop :=
  res.mStart = w.mStart ∧ res.mEnd = w.mEnd ∧ res.mDir = w.mDir ∧
  ((res.mVal.isSome ∧ res.mIdx ≤ min i0 (w.mEnd - 1) ∧
      w.mStart ≤ res.mIdx ∧ res.mVal = atIdx l res.mIdx ∧
      (∀ j, res.mIdx < j → j ≤ min i0 (w.mEnd - 1) → atIdx l j = none)) ∨
   (res.mVal = none ∧ res.mIdx = intMin + 1 ∧
      (∀ j, w.mStart ≤ j → j ≤ min i0 (w.mEnd - 1) → atIdx l j = none)))

/-- The values of the non-null slots at logical positions
`idx, idx+1, ..., stop-1`, in order. -/
def windowList (l : RList α) (idx stop : Int) : List α :=
  ((List.range ((stop - idx).toNat)).map
    (fun (k : Nat) => atIdx l (idx + (k : Int)))).reduceOption

/-- A list with null slots in both vectors, used to exercise compaction:
logical contents (some 2, none, some 1, none) at indices -2..1. -/
def c8List : RList Nat := ⟨[some 1, none], [none, some 2], 0⟩

/-- A concrete weak-pointer state: weakptr 0 points at target 0,
weakptr 1 at target 1, all other weakptrs null. -/
def wExample : WeakState Nat Nat :=
  { ptr := fun w => if w = 0 then some 0 else if w = 1 then some 1 else none,
    weakList := fun u => if u = 0 then [0] else if u = 1 then [1] else [] }

/-! ## Theorems -/

theorem initConfig_mem_reachSet : initConfig ∈ reachSet := by decide

theorem reachSet_closed : ∀ c ∈ reachSet, ∀ t ∈ steps c, t.1 ∈ reachSet := by
  decide

theorem reachable_mem_reachSet {c : Config} (h : Reachable c) :
    c ∈ reachSet := by
  induction h with
  | refl => exact initConfig_mem_reachSet
  | tail _ hbc ih =>
    obtain ⟨w, hw⟩ := hbc
    exact reachSet_closed _ ih _ hw

theorem reachSet_codes_ok : ∀ c ∈ reachSet,
    c.s ∈ legalCodes ∧ decodeState c.s ≠ none ∧
    ∀ a b, decodeState c.s = some (a, b) →
      ¬(a = .accum ∧ b = .accum) ∧ ¬(a = .report ∧ b = .report) := by
  decide

theorem reachSet_hold_ok : ∀ c ∈ reachSet, ∀ k ∈ (holdSlot c.c).toList,
    slotStatus c.s k = some .report ∧ ∀ t ∈ steps c, t.2 ≠ some k := by
  decide

/-! ## Claims C1-C5: the accumulator -/

/-- C1: the claim is FALSE on the code; this theorem exhibits the failing
run. The claim says a completed `accum(v)` with no intervening report is
counted by the next successful `report()` snapshot, and that in regime C
the slot accum resets and accumulates into is the slot the two state-word
increments mark ACCUM then VALID. In fact, from EMPTY_EMPTY (codes 0 and
8), `empty_idx = (state >> 3) ^ 1` selects the OPPOSITE slot from the one
the increments mark: from code 0 the code writes buffer 1 while the state
word moves 0 -> 1 (ACCUM_EMPTY, slot 0) -> 2 (VALID_EMPTY, slot 0). The
fully sequential run `accum(5); report()` from a fresh accumulator then
returns a successful snapshot that is the untouched slot-0 buffer: the
empty history, which does not count 5. -/
theorem c1_completed_accum_lost :
    accumLostRun = some (⟨4, [], [5]⟩, some ([] : List Nat)) ∧
    (5 : Nat) ∉ ([] : List Nat) ∧
    regimeCWriteIdx 0 = 1 ∧ accumSlotOf (0 + 1) = some 0 ∧
    slotStatus (0 + 1 + 1) 0 = some .valid ∧
    regimeCWriteIdx 8 = 0 ∧ accumSlotOf (8 + 1) = some 1 ∧
    slotStatus (8 + 1 + 1) 1 = some .valid := by
  decide

/-- C2: the claim is FALSE on the code. The spec scenario "Accum #1"
(accum 1, 2, 3; report; reset; accum 4; report over an integer-sum buffer)
is claimed to report 6 and then 4; the code reports 5 and then 2, because
the first accum after each EMPTY_EMPTY state writes the slot that is not
the one the state word marks VALID (see c1_completed_accum_lost). -/
theorem c2_scenario_reports_5_then_2 :
    accumScenario1 = some (5, 2) ∧ accumScenario1 ≠ some (6, 4) := by
  decide

/-- C3: every configuration reachable under the interleaved producer /
consumer semantics has its state word in the 13-code set (here the 14
listed encodings, 0 and 8 both denoting EMPTY_EMPTY), and no reachable
code has both slots ACCUM or both slots REPORT. -/
theorem c3_reachable_state_codes (c : Config) (h : Reachable c) :
    c.s ∈ legalCodes ∧ decodeState c.s ≠ none ∧
    ∀ a b, decodeState c.s = some (a, b) →
      ¬(a = .accum ∧ b = .accum) ∧ ¬(a = .report ∧ b = .report) :=
  reachSet_codes_ok c (reachable_mem_reachSet h)

/-- Witness for c3_reachable_state_codes at the initial configuration. -/
theorem c3_reachable_state_codes_witness :
    initConfig.s ∈ legalCodes ∧ decodeState initConfig.s ≠ none ∧
    ∀ a b, decodeState initConfig.s = some (a, b) →
      ¬(a = .accum ∧ b = .accum) ∧ ¬(a = .report ∧ b = .report) :=
  c3_reachable_state_codes initConfig Relation.ReflTransGen.refl

/-- C4: in every reachable configuration in which the consumer holds a
snapshot of slot k (between a successful report() and the following
reset()), slot k is in REPORT status, no step of either thread writes
buffer k, and the only remaining consumer step is reset(), which changes
the state word to `s XOR 12` (making slot k EMPTY, leaving the status of
the other slot unchanged), touches no buffer, and leaves the producer
untouched. -/
theorem reachSet_hold_xor : ∀ c ∈ reachSet, ∀ k ∈ (holdSlot c.c).toList,
    slotStatus (c.s ^^^ 12) k = some .empty ∧
    slotStatus (c.s ^^^ 12) (k ^^^ 1) = slotStatus c.s (k ^^^ 1) := by
  decide

theorem c4_snapshot_stable (c : Config) (k : Nat) (h : Reachable c)
    (hk : c.c = .hold k) :
    slotStatus c.s k = some .report ∧
    (∀ t ∈ steps c, t.2 ≠ some k) ∧
    cSteps c = [(⟨c.s ^^^ 12, c.p, .idle⟩, none)] ∧
    slotStatus (c.s ^^^ 12) k = some .empty ∧
    slotStatus (c.s ^^^ 12) (k ^^^ 1) = slotStatus c.s (k ^^^ 1) := by
  have hmem := reachable_mem_reachSet h
  have hks : k ∈ (holdSlot c.c).toList := by simp [hk, holdSlot]
  obtain ⟨h1, h2⟩ := reachSet_hold_ok c hmem k hks
  obtain ⟨h3, h4⟩ := reachSet_hold_xor c hmem k hks
  refine ⟨h1, h2, ?_, h3, h4⟩
  obtain ⟨s, p, cc⟩ := c
  subst hk
  rfl

/-- Witness for c4_snapshot_stable at `holdExample`. -/
theorem c4_snapshot_stable_witness :
    Reachable holdExample ∧
    (slotStatus holdExample.s 0 = some SlotStatus.report ∧
     (∀ t ∈ steps holdExample, t.2 ≠ some 0) ∧
     cSteps holdExample
       = [(Config.mk (holdExample.s ^^^ 12) holdExample.p CLoc.idle, none)] ∧
     slotStatus (holdExample.s ^^^ 12) 0 = some SlotStatus.empty ∧
     slotStatus (holdExample.s ^^^ 12) (0 ^^^ 1)
       = slotStatus holdExample.s (0 ^^^ 1)) :=
  have h1 : Reachable (Config.mk 0 (PLoc.incC1 0) CLoc.idle) :=
    Relation.ReflTransGen.tail Relation.ReflTransGen.refl ⟨none, by decide⟩
  have h2 : Reachable (Config.mk 1 (PLoc.bufC 0) CLoc.idle) :=
    Relation.ReflTransGen.tail h1 ⟨none, by decide⟩
  have h3 : Reachable (Config.mk 1 PLoc.incC2 CLoc.idle) :=
    Relation.ReflTransGen.tail h2 ⟨some 1, by decide⟩
  have h4 : Reachable (Config.mk 2 PLoc.idle CLoc.idle) :=
    Relation.ReflTransGen.tail h3 ⟨none, by decide⟩
  have h5 : Reachable (Config.mk 2 PLoc.idle (CLoc.casR 2)) :=
    Relation.ReflTransGen.tail h4 ⟨none, by decide⟩
  have hr : Reachable holdExample :=
    Relation.ReflTransGen.tail h5 ⟨none, by decide⟩
  ⟨hr, c4_snapshot_stable holdExample 0 hr rfl⟩

/-- C5: report() returns null exactly when the observed state has no VALID
slot (the single-consumer rule excludes the REPORT-containing codes from
the observable set), and in that case the state is unchanged; otherwise
the observed state is in {2, 3, 10, 11}, the state word moves from s to
s + 2 - marking the VALID slot (index s >> 3) REPORT while leaving the
other slot untouched - and the returned handle is the report of that
just-marked slot. -/
theorem c5_report_null_iff (ops : BufOps β ν ρ) (st : AccumState β)
    (h : st.s ∈ reportEntryStates) :
    ∃ st' r, reportSeq ops st = some (st', r) ∧
      (r = none ↔ st.s ∈ noValidStates) ∧
      (r = none → st' = st) ∧
      (r ≠ none →
        st.s ∈ ([2, 3, 10, 11] : List Nat) ∧
        st'.s = st.s + 2 ∧
        slotStatus st.s (st.s >>> 3) = some .valid ∧
        slotStatus (st.s + 2) (st.s >>> 3) = some .report ∧
        slotStatus (st.s + 2) ((st.s >>> 3) ^^^ 1)
          = slotStatus st.s ((st.s >>> 3) ^^^ 1) ∧
        r = some (ops.report (getBuf st (st.s >>> 3)))) := by
  obtain ⟨sv, b0, b1⟩ := st
  simp only [reportEntryStates, List.mem_cons, List.not_mem_nil, or_false] at h
  rcases h with rfl | rfl | rfl | rfl | rfl | rfl | rfl | rfl <;>
    simp [reportSeq, reportStates, noValidStates, slotStatus, decodeState,
      getBuf] <;>
    exact ⟨_, _, ⟨rfl, rfl⟩, by simp⟩

/-- Witness for c5_report_null_iff at state VALID_EMPTY with the sum
buffer. -/
theorem c5_report_null_iff_witness :
    (AccumState.mk 2 (7 : Int) 0).s ∈ reportEntryStates ∧
    (∃ st' r, reportSeq sumOps (AccumState.mk 2 (7 : Int) 0) = some (st', r) ∧
      (r = none ↔ (AccumState.mk 2 (7 : Int) 0).s ∈ noValidStates) ∧
      (r = none → st' = AccumState.mk 2 (7 : Int) 0) ∧
      (r ≠ none →
        (AccumState.mk 2 (7 : Int) 0).s ∈ ([2, 3, 10, 11] : List Nat) ∧
        st'.s = (AccumState.mk 2 (7 : Int) 0).s + 2 ∧
        slotStatus (AccumState.mk 2 (7 : Int) 0).s
          ((AccumState.mk 2 (7 : Int) 0).s >>> 3) = some .valid ∧
        slotStatus ((AccumState.mk 2 (7 : Int) 0).s + 2)
          ((AccumState.mk 2 (7 : Int) 0).s >>> 3) = some .report ∧
        slotStatus ((AccumState.mk 2 (7 : Int) 0).s + 2)
          (((AccumState.mk 2 (7 : Int) 0).s >>> 3) ^^^ 1)
          = slotStatus (AccumState.mk 2 (7 : Int) 0).s
            (((AccumState.mk 2 (7 : Int) 0).s >>> 3) ^^^ 1) ∧
        r = some (sumOps.report (getBuf (AccumState.mk 2 (7 : Int) 0)
          ((AccumState.mk 2 (7 : Int) 0).s >>> 3))))) :=
  ⟨by decide, c5_report_null_iff sumOps (AccumState.mk 2 (7 : Int) 0)
    (by decide)⟩

/-! ### find_valid characterization -/

theorem scanFwd_spec (l : RList α) (stop : Int) :
    ∀ (fuel : Nat) (idx : Int), (stop - idx).toNat ≤ fuel →
      ((scanFwd l stop fuel idx).2.isSome →
        idx ≤ (scanFwd l stop fuel idx).1 ∧
        (scanFwd l stop fuel idx).1 < stop ∧
        (scanFwd l stop fuel idx).2 = atIdx l (scanFwd l stop fuel idx).1 ∧
        ∀ j, idx ≤ j → j < (scanFwd l stop fuel idx).1 → atIdx l j = none) ∧
      ((scanFwd l stop fuel idx).2 = none →
        (scanFwd l stop fuel idx).1 = intMax - 1 ∧
        ∀ j, idx ≤ j → j < stop → atIdx l j = none)
  | 0, idx, h => by
    refine ⟨fun hs => absurd hs (by simp [scanFwd]), fun _ => ⟨rfl, ?_⟩⟩
    intro j h1 h2
    omega
  | fuel + 1, idx, h => by
    rw [scanFwd]
    split
    · rename_i hlt
      split
      · rename_i x hx
        exact ⟨fun _ => ⟨le_refl _, hlt, hx.symm, fun j h1 h2 => by omega⟩,
          fun hn => by simp at hn⟩
      · rename_i hx
        have IH := scanFwd_spec l stop fuel (idx + 1) (by omega)
        constructor
        · intro hs
          obtain ⟨a1, a2, a3, a4⟩ := IH.1 hs
          refine ⟨by omega, a2, a3, fun j h1 h2 => ?_⟩
          rcases eq_or_lt_of_le h1 with rfl | hgt
          · exact hx
          · exact a4 j (by omega) h2
        · intro hn
          obtain ⟨a1, a2⟩ := IH.2 hn
          refine ⟨a1, fun j h1 h2 => ?_⟩
          rcases eq_or_lt_of_le h1 with rfl | hgt
          · exact hx
          · exact a2 j (by omega) h2
    · rename_i hge
      exact ⟨fun hs => absurd hs (by simp), fun _ => ⟨rfl, fun j h1 h2 => by omega⟩⟩

theorem scanBwd_spec (l : RList α) (start : Int) :
    ∀ (fuel : Nat) (idx : Int), (idx - start + 1).toNat ≤ fuel →
      ((scanBwd l start fuel idx).2.isSome →
        (scanBwd l start fuel idx).1 ≤ idx ∧
        start ≤ (scanBwd l start fuel idx).1 ∧
        (scanBwd l start fuel idx).2 = atIdx l (scanBwd l start fuel idx).1 ∧
        ∀ j, (scanBwd l start fuel idx).1 < j → j ≤ idx → atIdx l j = none) ∧
      ((scanBwd l start fuel idx).2 = none →
        (scanBwd l start fuel idx).1 = intMin + 1 ∧
        ∀ j, start ≤ j → j ≤ idx → atIdx l j = none)
  | 0, idx, h => by
    refine ⟨fun hs => absurd hs (by simp [scanBwd]), fun _ => ⟨rfl, ?_⟩⟩
    intro j h1 h2
    omega
  | fuel + 1, idx, h => by
    rw [scanBwd]
    split
    · rename_i hle
      split
      · rename_i x hx
        exact ⟨fun _ => ⟨le_refl _, hle, hx.symm, fun j h1 h2 => by omega⟩,
          fun hn => by simp at hn⟩
      · rename_i hx
        have IH := scanBwd_spec l start fuel (idx - 1) (by omega)
        constructor
        · intro hs
          obtain ⟨a1, a2, a3, a4⟩ := IH.1 hs
          refine ⟨by omega, a2, a3, fun j h1 h2 => ?_⟩
          rcases eq_or_lt_of_le h2 with rfl | hgt
          · exact hx
          · exact a4 j h1 (by omega)
        · intro hn
          obtain ⟨a1, a2⟩ := IH.2 hn
          refine ⟨a1, fun j h1 h2 => ?_⟩
          rcases eq_or_lt_of_le h2 with rfl | hgt
          · exact hx
          · exact a2 j h1 (by omega)
    · rename_i hge
      exact ⟨fun hs => absurd hs (by simp), fun _ => ⟨rfl, fun j h1 h2 => by omega⟩⟩

theorem findValid_fwd (l : RList α) (dir : Int) (it : RIter α)
    (hd : dir > 0) : FwdScanFrom l it it.mIdx (findValid l dir it) := by
  have hs := scanFwd_spec l it.mEnd
    ((it.mEnd - max it.mIdx it.mStart).toNat) (max it.mIdx it.mStart)
    (le_refl _)
  have hres : findValid l dir it =
      ⟨it.mStart, it.mEnd,
       (scanFwd l it.mEnd ((it.mEnd - max it.mIdx it.mStart).toNat)
         (max it.mIdx it.mStart)).1,
       it.mDir,
       (scanFwd l it.mEnd ((it.mEnd - max it.mIdx it.mStart).toNat)
         (max it.mIdx it.mStart)).2⟩ := by
    unfold findValid
    rw [if_pos hd]
  rw [hres]
  refine ⟨rfl, rfl, rfl, ?_⟩
  cases hv : (scanFwd l it.mEnd ((it.mEnd - max it.mIdx it.mStart).toNat)
      (max it.mIdx it.mStart)).2 with
  | some x =>
    left
    obtain ⟨a1, a2, a3, a4⟩ := hs.1 (by rw [hv]; rfl)
    rw [hv] at a3
    exact ⟨rfl, a1, a2, a3, a4⟩
  | none =>
    right
    obtain ⟨a1, a2⟩ := hs.2 hv
    exact ⟨rfl, a1, a2⟩

theorem findValid_bwd (l : RList α) (dir : Int) (it : RIter α)
    (hd : ¬dir > 0) : BwdScanFrom l it it.mIdx (findValid l dir it) := by
  have hs := scanBwd_spec l it.mStart
    ((min it.mIdx (it.mEnd - 1) - it.mStart + 1).toNat)
    (min it.mIdx (it.mEnd - 1)) (le_refl _)
  have hres : findValid l dir it =
      ⟨it.mStart, it.mEnd,
       (scanBwd l it.mStart
         ((min it.mIdx (it.mEnd - 1) - it.mStart + 1).toNat)
         (min it.mIdx (it.mEnd - 1))).1,
       it.mDir,
       (scanBwd l it.mStart
         ((min it.mIdx (it.mEnd - 1) - it.mStart + 1).toNat)
         (min it.mIdx (it.mEnd - 1))).2⟩ := by
    unfold findValid
    rw [if_neg hd]
  rw [hres]
  refine ⟨rfl, rfl, rfl, ?_⟩
  cases hv : (scanBwd l it.mStart
      ((min it.mIdx (it.mEnd - 1) - it.mStart + 1).toNat)
      (min it.mIdx (it.mEnd - 1))).2 with
  | some x =>
    left
    obtain ⟨a1, a2, a3, a4⟩ := hs.1 (by rw [hv]; rfl)
    rw [hv] at a3
    exact ⟨rfl, a1, a2, a3, a4⟩
  | none =>
    right
    obtain ⟨a1, a2⟩ := hs.2 hv
    exact ⟨rfl, a1, a2⟩

/-- C6 counterexample: the claim says that for a forward iterator,
operator-- skips null slots in direction -dir and so lands on the nearest
non-null position strictly before the current one. On the list
[some 10, none, some 20] the forward iterator standing at index 2 should
then move to index 0 (non-null, strictly before 2); instead the code
(find_valid is called with m_dir, not -m_dir) scans forward from index 1,
skips the null, and stays at index 2. From the past-end sentinel,
operator-- stays at the sentinel. -/
theorem c6_counterexample :
    (iterInc c6List (beginIter c6List)).mIdx = 2 ∧
    (iterInc c6List (beginIter c6List)).mVal = some 20 ∧
    atIdx c6List 0 = some 10 ∧ atIdx c6List 1 = none ∧
    (iterDec c6List (iterInc c6List (beginIter c6List))).mIdx = 2 ∧
    ¬((iterDec c6List (iterInc c6List (beginIter c6List))).mIdx < 2) ∧
    (iterDec c6List (endIter c6List)).mIdx = intMax - 1 := by
  decide

/-- C6 (amended): operator++ moves cur_idx one position in direction dir
and then skips null slots in direction dir until the next non-null
position or the dir-side sentinel; operator-- moves cur_idx one position
in direction -dir and then ALSO skips null slots in direction dir (the
code passes m_dir, not -m_dir, to find_valid), clamping to the same
dir-side sentinel. For a forward iterator this means -- steps back once
and then scans forward to the first non-null position at or after that
point (not backward to the nearest non-null position strictly before). -/
theorem c6_iter_step_scan_direction (l : RList α) (it : RIter α) :
    (it.mDir = 1 →
      FwdScanFrom l it (it.mIdx + 1) (iterInc l it) ∧
      FwdScanFrom l it (it.mIdx - 1) (iterDec l it)) ∧
    (it.mDir = -1 →
      BwdScanFrom l it (it.mIdx - 1) (iterInc l it) ∧
      BwdScanFrom l it (it.mIdx + 1) (iterDec l it)) := by
  obtain ⟨st, en, ix, dr, vl⟩ := it
  constructor
  · intro hd
    replace hd : dr = 1 := hd
    subst hd
    constructor
    · exact findValid_fwd l 1 ⟨st, en, ix + 1, 1, none⟩ (by norm_num)
    · exact findValid_fwd l 1 ⟨st, en, ix - 1, 1, none⟩ (by norm_num)
  · intro hd
    replace hd : dr = -1 := hd
    subst hd
    constructor
    · exact findValid_bwd l (-1) ⟨st, en, ix - 1, -1, none⟩ (by norm_num)
    · exact findValid_bwd l (-1) ⟨st, en, ix + 1, -1, none⟩ (by norm_num)

/-- Witness for c6_iter_step_scan_direction at a concrete forward
iterator on c6List. -/
theorem c6_iter_step_scan_direction_witness :
    ((mkIter c6List 0 1).mDir = 1 →
      FwdScanFrom c6List (mkIter c6List 0 1) ((mkIter c6List 0 1).mIdx + 1)
        (iterInc c6List (mkIter c6List 0 1)) ∧
      FwdScanFrom c6List (mkIter c6List 0 1) ((mkIter c6List 0 1).mIdx - 1)
        (iterDec c6List (mkIter c6List 0 1))) ∧
    ((mkIter c6List 0 1).mDir = -1 →
      BwdScanFrom c6List (mkIter c6List 0 1) ((mkIter c6List 0 1).mIdx - 1)
        (iterInc c6List (mkIter c6List 0 1)) ∧
      BwdScanFrom c6List (mkIter c6List 0 1) ((mkIter c6List 0 1).mIdx + 1)
        (iterDec c6List (mkIter c6List 0 1))) :=
  c6_iter_step_scan_direction c6List (mkIter c6List 0 1)

/-! ### Window stability and index stability (reflist) -/

theorem findValid_frozen (l : RList α) (dir : Int) (it : RIter α) :
    (findValid l dir it).mStart = it.mStart ∧
    (findValid l dir it).mEnd = it.mEnd ∧
    (findValid l dir it).mDir = it.mDir := by
  unfold findValid
  split <;> exact ⟨rfl, rfl, rfl⟩

theorem findValid_window (l : RList α) (dir : Int) (it : RIter α) :
    (findValid l dir it).mVal.isSome →
    it.mStart ≤ (findValid l dir it).mIdx ∧
    (findValid l dir it).mIdx < it.mEnd := by
  intro hs
  by_cases hd : dir > 0
  · have h := findValid_fwd l dir it hd
    rcases h.2.2.2 with ⟨_, a1, a2, _, _⟩ | ⟨hn, _, _⟩
    · exact ⟨le_trans (le_max_right _ _) a1, a2⟩
    · rw [hn] at hs
      simp at hs
  · have h := findValid_bwd l dir it hd
    rcases h.2.2.2 with ⟨_, a1, a2, _, _⟩ | ⟨hn, _, _⟩
    · exact ⟨a2, lt_of_le_of_lt a1 (by omega)⟩
    · rw [hn] at hs
      simp at hs

theorem atIdx_append (l : RList α) (p : Option α) (i : Int)
    (h1 : i < endIdx l) : atIdx (appendItem l p) i = atIdx l i := by
  obtain ⟨fw, rv, cs⟩ := l
  simp only [endIdx] at h1
  by_cases hi : 0 ≤ i
  · simp only [atIdx, appendItem, if_pos hi]
    rw [List.getD_eq_getElem?_getD, List.getD_eq_getElem?_getD,
      List.getElem?_append_left (by omega)]
  · simp only [atIdx, appendItem, if_neg hi]

theorem atIdx_append_new (l : RList α) (p : Option α) :
    atIdx (appendItem l p) (endIdx l) = p := by
  obtain ⟨fw, rv, cs⟩ := l
  simp only [atIdx, appendItem, endIdx, if_pos (Int.ofNat_nonneg fw.length)]
  rw [List.getD_eq_getElem?_getD, Int.toNat_ofNat,
    List.getElem?_append_right (le_refl _)]
  simp

theorem atIdx_prepend (l : RList α) (p : Option α) (i : Int)
    (h0 : startIdx l ≤ i) : atIdx (prependItem l p) i = atIdx l i := by
  obtain ⟨fw, rv, cs⟩ := l
  simp only [startIdx] at h0
  by_cases hi : 0 ≤ i
  · simp only [atIdx, prependItem, if_pos hi]
  · simp only [atIdx, prependItem, if_neg hi]
    rw [List.getD_eq_getElem?_getD, List.getD_eq_getElem?_getD,
      List.getElem?_append_left (by omega)]

theorem atIdx_prepend_new (l : RList α) (p : Option α) :
    atIdx (prependItem l p) (startIdx l - 1) = p := by
  obtain ⟨fw, rv, cs⟩ := l
  have hneg : ¬(0 ≤ -(rv.length : Int) - 1) := by omega
  simp only [atIdx, prependItem, startIdx, if_neg hneg]
  rw [List.getD_eq_getElem?_getD,
    show (-1 - (-(rv.length : Int) - 1)).toNat = rv.length by omega,
    List.getElem?_append_right (le_refl _)]
  simp

theorem atIdx_set_ne (l : RList α) (j i : Int) (q : Option α) (hne : j ≠ i) :
    atIdx (setIdx l j q) i = atIdx l i := by
  obtain ⟨fw, rv, cs⟩ := l
  by_cases hj : 0 ≤ j <;> by_cases hi : 0 ≤ i <;>
    simp only [atIdx, setIdx, if_pos, if_neg, hj, hi, ite_true, ite_false]
  · rw [List.getD_eq_getElem?_getD, List.getD_eq_getElem?_getD,
      List.getElem?_set_ne (by omega)]
  · rw [List.getD_eq_getElem?_getD, List.getD_eq_getElem?_getD,
      List.getElem?_set_ne (by omega)]

theorem atIdx_remove_self (l : RList α) (i : Int) (h0 : startIdx l ≤ i)
    (h1 : i < endIdx l) : atIdx (removeAt l i) i = none := by
  obtain ⟨fw, rv, cs⟩ := l
  simp only [startIdx, endIdx] at h0 h1
  by_cases hi : 0 ≤ i <;>
    simp only [atIdx, removeAt, setIdx, if_pos, if_neg, hi, ite_true,
      ite_false]
  · rw [List.getD_eq_getElem?_getD, List.getElem?_set]
    rw [if_pos rfl, if_pos (by omega)]
    rfl
  · rw [List.getD_eq_getElem?_getD, List.getElem?_set]
    rw [if_pos rfl, if_pos (by omega)]
    rfl

theorem bounds_applyOp (l : RList α) (op : ListOp α) :
    startIdx (applyOp l op) ≤ startIdx l ∧
    endIdx l ≤ endIdx (applyOp l op) := by
  obtain ⟨fw, rv, cs⟩ := l
  cases op with
  | append p => simp [applyOp, appendItem, startIdx, endIdx]
  | prepend p =>
    simp [applyOp, prependItem, startIdx, endIdx]
  | removeAt j =>
    by_cases hj : 0 ≤ j <;>
      simp [applyOp, removeAt, setIdx, hj, startIdx, endIdx]

theorem applyOps_at : ∀ (ops : List (ListOp α)) (l : RList α) (i : Int),
    startIdx l ≤ i → i < endIdx l →
    (startIdx (applyOps l ops) ≤ i ∧ i < endIdx (applyOps l ops)) ∧
    (atIdx (applyOps l ops) i = atIdx l i ∨ atIdx (applyOps l ops) i = none)
  | [], l, i, h0, h1 => ⟨⟨h0, h1⟩, Or.inl rfl⟩
  | op :: ops, l, i, h0, h1 => by
    have hb := bounds_applyOp l op
    have hrec := applyOps_at ops (applyOp l op) i (le_trans hb.1 h0)
      (lt_of_lt_of_le h1 hb.2)
    have hstep : atIdx (applyOp l op) i = atIdx l i ∨
        atIdx (applyOp l op) i = none := by
      cases op with
      | append p => exact Or.inl (atIdx_append l p i h1)
      | prepend p => exact Or.inl (atIdx_prepend l p i h0)
      | removeAt j =>
        by_cases hj : j = i
        · subst hj
          exact Or.inr (atIdx_remove_self l j h0 h1)
        · exact Or.inl (atIdx_set_ne l j i none hj)
    have hfold : applyOps l (op :: ops) = applyOps (applyOp l op) ops := rfl
    rw [hfold]
    refine ⟨hrec.1, ?_⟩
    rcases hrec.2 with he | he
    · rcases hstep with hs | hs
      · exact Or.inl (he.trans hs)
      · exact Or.inr (he.trans hs)
    · exact Or.inr he

/-- C7: the window an iterator captured at construction never changes
under ++ and --; a valid iterator always points inside that window (so
elements appended or prepended later - which land strictly outside the old
bounds - are never yielded); and append, prepend and remove never change
the logical index of an existing element: over any sequence of such
operations the slot at index i holds its original pointer until (at most)
a remove nulls it. -/
theorem c7_iterator_stability (l : RList α) (it : RIter α) (i : Int)
    (h0 : startIdx l ≤ i) (h1 : i < endIdx l) :
    ((iterInc l it).mStart = it.mStart ∧ (iterInc l it).mEnd = it.mEnd ∧
     (iterDec l it).mStart = it.mStart ∧ (iterDec l it).mEnd = it.mEnd) ∧
    ((iterInc l it).mVal.isSome →
      it.mStart ≤ (iterInc l it).mIdx ∧ (iterInc l it).mIdx < it.mEnd) ∧
    ((iterDec l it).mVal.isSome →
      it.mStart ≤ (iterDec l it).mIdx ∧ (iterDec l it).mIdx < it.mEnd) ∧
    (∀ idx dir, (mkIter l idx dir).mStart = startIdx l ∧
      (mkIter l idx dir).mEnd = endIdx l ∧
      ((mkIter l idx dir).mVal.isSome →
        startIdx l ≤ (mkIter l idx dir).mIdx ∧
        (mkIter l idx dir).mIdx < endIdx l)) ∧
    (∀ p, atIdx (appendItem l p) i = atIdx l i ∧
      startIdx (appendItem l p) = startIdx l ∧
      endIdx (appendItem l p) = endIdx l + 1 ∧
      atIdx (appendItem l p) (endIdx l) = p) ∧
    (∀ p, atIdx (prependItem l p) i = atIdx l i ∧
      startIdx (prependItem l p) = startIdx l - 1 ∧
      endIdx (prependItem l p) = endIdx l ∧
      atIdx (prependItem l p) (startIdx l - 1) = p) ∧
    (∀ j q, j ≠ i → atIdx (setIdx l j q) i = atIdx l i) ∧
    (∀ ops : List (ListOp α),
      atIdx (applyOps l ops) i = atIdx l i ∨
      atIdx (applyOps l ops) i = none) := by
  refine ⟨⟨(findValid_frozen l it.mDir _).1, (findValid_frozen l it.mDir _).2.1,
      (findValid_frozen l it.mDir _).1, (findValid_frozen l it.mDir _).2.1⟩,
    fun hs => findValid_window l it.mDir _ hs,
    fun hs => findValid_window l it.mDir _ hs,
    fun idx dir => ⟨(findValid_frozen l dir _).1, (findValid_frozen l dir _).2.1,
      fun hs => findValid_window l dir _ hs⟩,
    fun p => ⟨atIdx_append l p i h1, rfl, ?_, atIdx_append_new l p⟩,
    fun p => ⟨atIdx_prepend l p i h0, ?_, rfl, atIdx_prepend_new l p⟩,
    fun j q hne => atIdx_set_ne l j i q hne,
    fun ops => (applyOps_at ops l i h0 h1).2⟩
  · obtain ⟨fw, rv, cs⟩ := l
    simp [appendItem, endIdx]
  · obtain ⟨fw, rv, cs⟩ := l
    simp [prependItem, startIdx]
    omega

/-- Witness for c7_iterator_stability on c6List at index 0. -/
theorem c7_iterator_stability_witness :
    (startIdx c6List ≤ 0 ∧ (0 : Int) < endIdx c6List) ∧
    (((iterInc c6List (beginIter c6List)).mStart = (beginIter c6List).mStart ∧
      (iterInc c6List (beginIter c6List)).mEnd = (beginIter c6List).mEnd ∧
      (iterDec c6List (beginIter c6List)).mStart = (beginIter c6List).mStart ∧
      (iterDec c6List (beginIter c6List)).mEnd = (beginIter c6List).mEnd) ∧
    ((iterInc c6List (beginIter c6List)).mVal.isSome →
      (beginIter c6List).mStart ≤ (iterInc c6List (beginIter c6List)).mIdx ∧
      (iterInc c6List (beginIter c6List)).mIdx < (beginIter c6List).mEnd) ∧
    ((iterDec c6List (beginIter c6List)).mVal.isSome →
      (beginIter c6List).mStart ≤ (iterDec c6List (beginIter c6List)).mIdx ∧
      (iterDec c6List (beginIter c6List)).mIdx < (beginIter c6List).mEnd) ∧
    (∀ idx dir, (mkIter c6List idx dir).mStart = startIdx c6List ∧
      (mkIter c6List idx dir).mEnd = endIdx c6List ∧
      ((mkIter c6List idx dir).mVal.isSome →
        startIdx c6List ≤ (mkIter c6List idx dir).mIdx ∧
        (mkIter c6List idx dir).mIdx < endIdx c6List)) ∧
    (∀ p, atIdx (appendItem c6List p) 0 = atIdx c6List 0 ∧
      startIdx (appendItem c6List p) = startIdx c6List ∧
      endIdx (appendItem c6List p) = endIdx c6List + 1 ∧
      atIdx (appendItem c6List p) (endIdx c6List) = p) ∧
    (∀ p, atIdx (prependItem c6List p) 0 = atIdx c6List 0 ∧
      startIdx (prependItem c6List p) = startIdx c6List - 1 ∧
      endIdx (prependItem c6List p) = endIdx c6List ∧
      atIdx (prependItem c6List p) (startIdx c6List - 1) = p) ∧
    (∀ j q, j ≠ (0 : Int) → atIdx (setIdx c6List j q) 0 = atIdx c6List 0) ∧
    (∀ ops : List (ListOp Nat),
      atIdx (applyOps c6List ops) 0 = atIdx c6List 0 ∨
      atIdx (applyOps c6List ops) 0 = none)) :=
  ⟨⟨by decide, by decide⟩,
    c7_iterator_stability c6List (beginIter c6List) 0 (by decide) (by decide)⟩

/-! ### Iteration and compaction (reflist) -/

theorem getD_range_map : ∀ (L : List γ) (d : γ),
    (List.range L.length).map (fun k => L.getD k d) = L
  | [], _ => rfl
  | a :: L, d => by
    rw [List.length_cons, List.range_succ_eq_map, List.map_cons,
      List.map_map]
    have hc : ((fun k => (a :: L).getD k d) ∘ Nat.succ)
        = fun k => L.getD k d := rfl
    rw [hc, getD_range_map L d]
    rfl

theorem windowList_stop (l : RList α) (a stop : Int) (h : stop ≤ a) :
    windowList l a stop = [] := by
  unfold windowList
  rw [show (stop - a).toNat = 0 by omega]
  rfl

theorem windowList_some_head (l : RList α) (a stop : Int) (x : α)
    (ha : a < stop) (h : atIdx l a = some x) :
    windowList l a stop = x :: windowList l (a + 1) stop := by
  unfold windowList
  rw [show (stop - a).toNat = (stop - (a + 1)).toNat + 1 by omega,
    List.range_succ_eq_map, List.map_cons, List.map_map]
  have hc : ((fun (k : Nat) => atIdx l (a + (k : Int))) ∘ Nat.succ)
      = fun (k : Nat) => atIdx l ((a + 1) + (k : Int)) := by
    funext k
    simp only [Function.comp_apply]
    congr 1
    push_cast
    omega
  rw [hc]
  simp only [Nat.cast_zero, add_zero, h, List.reduceOption_cons_of_some]

theorem windowList_none_head (l : RList α) (a stop : Int)
    (ha : a < stop) (h : atIdx l a = none) :
    windowList l a stop = windowList l (a + 1) stop := by
  unfold windowList
  rw [show (stop - a).toNat = (stop - (a + 1)).toNat + 1 by omega,
    List.range_succ_eq_map, List.map_cons, List.map_map]
  have hc : ((fun (k : Nat) => atIdx l (a + (k : Int))) ∘ Nat.succ)
      = fun (k : Nat) => atIdx l ((a + 1) + (k : Int)) := by
    funext k
    simp only [Function.comp_apply]
    congr 1
    push_cast
    omega
  rw [hc]
  simp only [Nat.cast_zero, add_zero, h, List.reduceOption_cons_of_none]

theorem windowList_skip (l : RList α) : ∀ (n : Nat) (a b stop : Int),
    (b - a).toNat ≤ n → a ≤ b → b ≤ stop →
    (∀ j, a ≤ j → j < b → atIdx l j = none) →
    windowList l a stop = windowList l b stop
  | 0, a, b, stop, hn, hab, _, _ => by
    rw [show a = b by omega]
  | n + 1, a, b, stop, hn, hab, hbs, h => by
    rcases eq_or_lt_of_le hab with rfl | hlt
    · rfl
    · rw [windowList_none_head l a stop (by omega) (h a (le_refl _) hlt)]
      exact windowList_skip l n (a + 1) b stop (by omega) (by omega) hbs
        (fun j h1 h2 => h j (by omega) h2)

theorem windowList_all_none (l : RList α) (a stop : Int)
    (h : ∀ j, a ≤ j → j < stop → atIdx l j = none) :
    windowList l a stop = [] := by
  by_cases hc : stop ≤ a
  · exact windowList_stop l a stop hc
  · rw [windowList_skip l ((stop - a).toNat) a stop stop (le_refl _)
      (by omega) (le_refl _) h]
    exact windowList_stop l stop stop (le_refl _)

theorem collectIter_succ (l : RList α) (m : Nat) (it : RIter α) (x : α)
    (hx : it.mVal = some x) :
    collectIter l (m + 1) it = x :: collectIter l m (iterInc l it) := by
  rw [collectIter, hx]

theorem collectIter_nil (l : RList α) (n : Nat) (it : RIter α)
    (hx : it.mVal = none) : collectIter l n it = [] := by
  cases n with
  | zero => rfl
  | succ m => rw [collectIter, hx]

theorem collect_parked (l : RList α) : ∀ (n : Nat) (i0 : Int),
    startIdx l ≤ i0 → (endIdx l - i0).toNat ≤ n →
    collectIter l n (findValid l 1 ⟨startIdx l, endIdx l, i0, 1, none⟩)
      = windowList l i0 (endIdx l)
  | n, i0, hge, hn => by
    have hchar := findValid_fwd l 1 ⟨startIdx l, endIdx l, i0, 1, none⟩
      (by norm_num)
    unfold FwdScanFrom at hchar
    dsimp only at hchar
    rw [max_eq_left hge] at hchar
    obtain ⟨-, -, -, hcase⟩ := hchar
    rcases hcase with ⟨hs, hge2, hlt, hval, hnull⟩ | ⟨hvn, -, hnull⟩
    · obtain ⟨x, hx⟩ := Option.isSome_iff_exists.mp hs
      cases n with
      | zero => exact absurd hn (by omega)
      | succ m =>
        rw [windowList_skip l
          (((findValid l 1 ⟨startIdx l, endIdx l, i0, 1, none⟩).mIdx
            - i0).toNat) i0
          ((findValid l 1 ⟨startIdx l, endIdx l, i0, 1, none⟩).mIdx)
          (endIdx l) (le_refl _) hge2 (le_of_lt hlt) hnull,
          windowList_some_head l _ (endIdx l) x hlt (hval.symm.trans hx),
          collectIter_succ l m _ x hx]
        congr 1
        have hiter : iterInc l
            (findValid l 1 ⟨startIdx l, endIdx l, i0, 1, none⟩)
            = findValid l 1 ⟨startIdx l, endIdx l,
                (findValid l 1
                  ⟨startIdx l, endIdx l, i0, 1, none⟩).mIdx + 1,
                1, none⟩ := rfl
        rw [hiter]
        exact collect_parked l m _ (by omega) (by omega)
    · rw [collectIter_nil l n _ hvn, windowList_all_none l i0 (endIdx l)
        hnull]

theorem windowList_eq_elems (l : RList α) :
    windowList l (startIdx l) (endIdx l) = elems l := by
  obtain ⟨fw, rv, cs⟩ := l
  unfold windowList elems startIdx endIdx
  dsimp only
  congr 1
  rw [show (((fw.length : Int)) - -((rv.length : Int))).toNat
      = (rv.reverse ++ fw).length by
    simp
    omega]
  conv_rhs => rw [← getD_range_map (rv.reverse ++ fw) none]
  apply List.map_congr_left
  intro k hk
  simp only [List.mem_range, List.length_append, List.length_reverse] at hk
  by_cases hks : k < rv.length
  · have hneg : ¬(0 ≤ -((rv.length : Int)) + (k : Int)) := by omega
    simp only [atIdx, if_neg hneg]
    rw [List.getD_eq_getElem?_getD, List.getD_eq_getElem?_getD,
      List.getElem?_append_left (by rw [List.length_reverse]; omega),
      List.getElem?_reverse (by omega),
      show (-1 - (-((rv.length : Int)) + (k : Int))).toNat
        = rv.length - 1 - k by omega]
  · have hpos : 0 ≤ -((rv.length : Int)) + (k : Int) := by omega
    simp only [atIdx, if_pos hpos]
    rw [List.getD_eq_getElem?_getD, List.getD_eq_getElem?_getD,
      List.getElem?_append_right (by rw [List.length_reverse]; omega),
      show (-((rv.length : Int)) + (k : Int)).toNat
        = k - rv.reverse.length by rw [List.length_reverse]; omega]

theorem traceFwd_eq_elems (l : RList α) (n : Nat)
    (hn : (endIdx l - startIdx l).toNat ≤ n) : traceFwd l n = elems l := by
  have h1 : traceFwd l n = windowList l (startIdx l) (endIdx l) :=
    collect_parked l n (startIdx l) (le_refl _) hn
  rw [h1, windowList_eq_elems l]

theorem reduceOption_filter_isSome : ∀ (L : List (Option γ)),
    (L.filter Option.isSome).reduceOption = L.reduceOption
  | [] => rfl
  | some x :: L => by
    rw [List.filter_cons_of_pos (by rfl), List.reduceOption_cons_of_some,
      List.reduceOption_cons_of_some, reduceOption_filter_isSome L]
  | none :: L => by
    rw [List.filter_cons_of_neg (by simp), List.reduceOption_cons_of_none]
    exact reduceOption_filter_isSome L

theorem elems_lastUnref (l : RList α) : elems (lastUnref l) = elems l := by
  obtain ⟨fw, rv, cs⟩ := l
  unfold lastUnref
  split
  · unfold elems
    dsimp only
    rw [List.reduceOption_append, List.reduceOption_append,
      ← List.filter_reverse, reduceOption_filter_isSome,
      reduceOption_filter_isSome]
  · rfl

theorem refReset_unref_zero [DecidableEq τ] (counts : τ → Nat)
    (mp np : Option τ) (t : τ)
    (h : (refReset counts mp np).unrefFired = some t) :
    (refReset counts mp np).counts t = 0 := by
  cases mp with
  | none => cases np <;> simp [refReset] at h
  | some o =>
    cases np with
    | none =>
      simp only [refReset, eq_self_iff_true, if_true] at h ⊢
      by_cases hz : counts o - 1 = 0
      · rw [if_pos hz] at h
        injection h with h2
        subst h2
        rw [if_pos rfl]
        exact hz
      · rw [if_neg hz] at h
        exact Option.noConfusion h
    | some u =>
      simp only [refReset, eq_self_iff_true, if_true] at h ⊢
      by_cases hz : (if o = u then counts u + 1 else counts o) - 1 = 0
      · rw [if_pos hz] at h
        injection h with h2
        subst h2
        rw [if_pos rfl]
        exact hz
      · rw [if_neg hz] at h
        exact Option.noConfusion h

/-- C8: the backing vectors are never shortened by append, prepend or
remove; last_unref - which the reference machinery fires exactly when the
refcount reaches zero (final clause) - compacts only when the logical
length grew past cached_size (otherwise it is the identity); compaction
strips exactly the null slots from both vectors in order and records the
new logical length; and the sequence of elements produced by a full
forward iteration is identical before and after compaction. -/
theorem c8_compaction (l : RList α) (n m : Nat)
    (hn : (endIdx l - startIdx l).toNat ≤ n)
    (hm : (endIdx (lastUnref l) - startIdx (lastUnref l)).toNat ≤ m) :
    (∀ p, (appendItem l p).fwdItems.length = l.fwdItems.length + 1 ∧
      (appendItem l p).revItems.length = l.revItems.length) ∧
    (∀ p, (prependItem l p).revItems.length = l.revItems.length + 1 ∧
      (prependItem l p).fwdItems.length = l.fwdItems.length) ∧
    (∀ j, (removeAt l j).fwdItems.length = l.fwdItems.length ∧
      (removeAt l j).revItems.length = l.revItems.length) ∧
    (¬endIdx l - startIdx l > l.cachedSize → lastUnref l = l) ∧
    (endIdx l - startIdx l > l.cachedSize →
      (lastUnref l).fwdItems = l.fwdItems.filter Option.isSome ∧
      (lastUnref l).revItems = l.revItems.filter Option.isSome ∧
      (lastUnref l).cachedSize
        = endIdx (lastUnref l) - startIdx (lastUnref l)) ∧
    elems (lastUnref l) = elems l ∧
    traceFwd (lastUnref l) m = traceFwd l n ∧
    (∀ (counts : Nat → Nat) (mp np : Option Nat) (t : Nat),
      (refReset counts mp np).unrefFired = some t →
      (refReset counts mp np).counts t = 0) := by
  refine ⟨?_, ?_, ?_, ?_, ?_, elems_lastUnref l, ?_,
    fun counts mp np t h => refReset_unref_zero counts mp np t h⟩
  · intro p
    obtain ⟨fw, rv, cs⟩ := l
    simp [appendItem]
  · intro p
    obtain ⟨fw, rv, cs⟩ := l
    simp [prependItem]
  · intro j
    obtain ⟨fw, rv, cs⟩ := l
    by_cases hj : 0 ≤ j <;> simp [removeAt, setIdx, hj]
  · intro hlt
    unfold lastUnref
    rw [if_neg hlt]
  · intro hgt
    have hl : lastUnref l =
        { fwdItems := l.fwdItems.filter Option.isSome,
          revItems := l.revItems.filter Option.isSome,
          cachedSize := ((l.fwdItems.filter Option.isSome).length : Int)
            - -((l.revItems.filter Option.isSome).length : Int) } := by
      unfold lastUnref
      rw [if_pos hgt]
      rfl
    rw [hl]
    exact ⟨rfl, rfl, rfl⟩
  · rw [traceFwd_eq_elems (lastUnref l) m hm, traceFwd_eq_elems l n hn,
      elems_lastUnref l]

/-- Witness for c8_compaction on c8List with fuel 4. -/
theorem c8_compaction_witness :
    ((endIdx c8List - startIdx c8List).toNat ≤ 4 ∧
     (endIdx (lastUnref c8List) - startIdx (lastUnref c8List)).toNat ≤ 4) ∧
    ((∀ p, (appendItem c8List p).fwdItems.length
        = c8List.fwdItems.length + 1 ∧
      (appendItem c8List p).revItems.length = c8List.revItems.length) ∧
    (∀ p, (prependItem c8List p).revItems.length
        = c8List.revItems.length + 1 ∧
      (prependItem c8List p).fwdItems.length = c8List.fwdItems.length) ∧
    (∀ j, (removeAt c8List j).fwdItems.length = c8List.fwdItems.length ∧
      (removeAt c8List j).revItems.length = c8List.revItems.length) ∧
    (¬endIdx c8List - startIdx c8List > c8List.cachedSize →
      lastUnref c8List = c8List) ∧
    (endIdx c8List - startIdx c8List > c8List.cachedSize →
      (lastUnref c8List).fwdItems
        = c8List.fwdItems.filter Option.isSome ∧
      (lastUnref c8List).revItems
        = c8List.revItems.filter Option.isSome ∧
      (lastUnref c8List).cachedSize
        = endIdx (lastUnref c8List) - startIdx (lastUnref c8List)) ∧
    elems (lastUnref c8List) = elems c8List ∧
    traceFwd (lastUnref c8List) 4 = traceFwd c8List 4 ∧
    (∀ (counts : Nat → Nat) (mp np : Option Nat) (t : Nat),
      (refReset counts mp np).unrefFired = some t →
      (refReset counts mp np).counts t = 0)) :=
  ⟨⟨by decide, by decide⟩, c8_compaction c8List 4 4 (by decide) (by decide)⟩

/-- C9: ref_base::reset(p) increments the count of a non-null p first,
then decrements the old pointee and fires last_unref exactly when that
decrement reaches zero, then stores p. Consequently resetting a reference
to the target it already holds leaves every count unchanged and never
fires last_unref, while resetting from one target to a different one nets
+1 on the new target, -1 on the old, leaves all other counts alone, and
fires last_unref on the old target iff its count was exactly 1. -/
theorem c9_ref_reset [DecidableEq τ] (counts : τ → Nat) (t o u : τ) :
    (1 ≤ counts t →
      (∀ x, (refReset counts (some t) (some t)).counts x = counts x) ∧
      (refReset counts (some t) (some t)).unrefFired = none ∧
      (refReset counts (some t) (some t)).stored = some t) ∧
    (o ≠ u → 1 ≤ counts o →
      (refReset counts (some o) (some u)).counts u = counts u + 1 ∧
      (refReset counts (some o) (some u)).counts o = counts o - 1 ∧
      (∀ x, x ≠ o → x ≠ u →
        (refReset counts (some o) (some u)).counts x = counts x) ∧
      ((refReset counts (some o) (some u)).unrefFired = some o
        ↔ counts o = 1) ∧
      (refReset counts (some o) (some u)).stored = some u) := by
  constructor
  · intro h1
    refine ⟨?_, ?_, rfl⟩
    · intro x
      simp only [refReset]
      by_cases hx : x = t
      · subst hx
        simp
      · simp [hx]
    · simp only [refReset, eq_self_iff_true, if_true, Nat.add_sub_cancel]
      rw [if_neg (by omega)]
  · intro hne h1
    have hne2 : u ≠ o := Ne.symm hne
    refine ⟨?_, ?_, ?_, ?_, rfl⟩
    · simp [refReset, hne, hne2]
    · simp [refReset, hne]
    · intro x hxo hxu
      simp [refReset, hxo, hxu]
    · simp only [refReset, eq_self_iff_true, if_true, if_neg hne]
      constructor
      · intro hf
        by_cases hz : counts o - 1 = 0
        · omega
        · rw [if_neg hz] at hf
          exact Option.noConfusion hf
      · intro hc
        rw [if_pos (by omega)]

/-- Witness for c9_ref_reset at a concrete count heap over Nat ids. -/
theorem c9_ref_reset_witness :
    (1 ≤ (fun x => if x = 0 then 2 else if x = 1 then 1 else 0) (0 : Nat) ∧
     (0 : Nat) ≠ 1) ∧
    ((1 ≤ (fun x => if x = 0 then 2 else if x = 1 then 1 else 0) (0 : Nat) →
      (∀ x, (refReset (fun x => if x = 0 then 2 else if x = 1 then 1 else 0)
          (some 0) (some 0)).counts x
        = (fun x => if x = 0 then 2 else if x = 1 then 1 else 0) x) ∧
      (refReset (fun x => if x = 0 then 2 else if x = 1 then 1 else 0)
        (some 0) (some 0)).unrefFired = none ∧
      (refReset (fun x => if x = 0 then 2 else if x = 1 then 1 else 0)
        (some 0) (some 0)).stored = some 0) ∧
    ((0 : Nat) ≠ 1 →
      1 ≤ (fun x => if x = 0 then 2 else if x = 1 then 1 else 0) (0 : Nat) →
      (refReset (fun x => if x = 0 then 2 else if x = 1 then 1 else 0)
        (some 0) (some 1)).counts 1
        = (fun x => if x = 0 then 2 else if x = 1 then 1 else 0) 1 + 1 ∧
      (refReset (fun x => if x = 0 then 2 else if x = 1 then 1 else 0)
        (some 0) (some 1)).counts 0
        = (fun x => if x = 0 then 2 else if x = 1 then 1 else 0) 0 - 1 ∧
      (∀ x, x ≠ 0 → x ≠ 1 →
        (refReset (fun x => if x = 0 then 2 else if x = 1 then 1 else 0)
          (some 0) (some 1)).counts x
          = (fun x => if x = 0 then 2 else if x = 1 then 1 else 0) x) ∧
      ((refReset (fun x => if x = 0 then 2 else if x = 1 then 1 else 0)
          (some 0) (some 1)).unrefFired = some 0
        ↔ (fun x => if x = 0 then 2 else if x = 1 then 1 else 0) (0 : Nat)
            = 1) ∧
      (refReset (fun x => if x = 0 then 2 else if x = 1 then 1 else 0)
        (some 0) (some 1)).stored = some 1)) :=
  ⟨⟨by decide, by decide⟩,
    c9_ref_reset (fun x => if x = 0 then 2 else if x = 1 then 1 else 0)
      0 0 1⟩

/-! ### Weak-pointer list well-formedness and target destruction -/

theorem weakUnlink_ptr [DecidableEq ω] [DecidableEq τ]
    (s : WeakState ω τ) (w : ω) : (weakUnlink s w).ptr = s.ptr := by
  unfold weakUnlink
  split <;> rfl

theorem weakUnlink_mem [DecidableEq ω] [DecidableEq τ]
    (s : WeakState ω τ) (w : ω) (hwf : WFWeak s) (u : τ) (x : ω) :
    x ∈ (weakUnlink s w).weakList u ↔ x ≠ w ∧ x ∈ s.weakList u := by
  unfold weakUnlink
  split
  · rename_i o hp
    dsimp only
    by_cases hu : u = o
    · subst hu
      rw [if_pos rfl]
      exact (hwf.1 u).mem_erase_iff
    · rw [if_neg hu]
      constructor
      · intro hm
        refine ⟨?_, hm⟩
        rintro rfl
        have h2 := (hwf.2 u x).mp hm
        rw [hp] at h2
        injection h2 with h3
        exact hu h3.symm
      · exact fun h => h.2
  · rename_i hp
    constructor
    · intro hm
      refine ⟨?_, hm⟩
      rintro rfl
      have h2 := (hwf.2 u x).mp hm
      rw [hp] at h2
      exact Option.noConfusion h2
    · exact fun h => h.2

theorem weakUnlink_nodup [DecidableEq ω] [DecidableEq τ]
    (s : WeakState ω τ) (w : ω) (hwf : WFWeak s) (u : τ) :
    ((weakUnlink s w).weakList u).Nodup := by
  unfold weakUnlink
  split
  · rename_i o hp
    dsimp only
    by_cases hu : u = o
    · subst hu
      rw [if_pos rfl]
      exact (hwf.1 u).erase w
    · rw [if_neg hu]
      exact hwf.1 u
  · exact hwf.1 u

theorem weakReset_WF [DecidableEq ω] [DecidableEq τ]
    (s : WeakState ω τ) (w : ω) (p : Option τ) (hwf : WFWeak s) :
    WFWeak (weakReset s w p) := by
  unfold weakReset
  cases p with
  | some t =>
    dsimp only
    constructor
    · intro u
      dsimp only
      by_cases hu : u = t
      · subst hu
        rw [if_pos rfl, List.nodup_cons]
        refine ⟨?_, weakUnlink_nodup s w hwf u⟩
        intro hm
        exact ((weakUnlink_mem s w hwf u w).mp hm).1 rfl
      · rw [if_neg hu]
        exact weakUnlink_nodup s w hwf u
    · intro u x
      dsimp only
      by_cases hx : x = w
      · subst hx
        rw [if_pos rfl]
        by_cases hu : u = t
        · subst hu
          rw [if_pos rfl]
          simp
        · rw [if_neg hu]
          constructor
          · intro hm
            exact absurd ((weakUnlink_mem s x hwf u x).mp hm).1 (by simp)
          · intro he
            injection he with h2
            exact absurd h2.symm hu
      · rw [if_neg hx, weakUnlink_ptr]
        by_cases hu : u = t
        · subst hu
          rw [if_pos rfl, List.mem_cons]
          constructor
          · rintro (rfl | hm)
            · exact absurd rfl hx
            · exact (hwf.2 u x).mp ((weakUnlink_mem s w hwf u x).mp hm).2
          · intro hp
            right
            exact (weakUnlink_mem s w hwf u x).mpr ⟨hx, (hwf.2 u x).mpr hp⟩
        · rw [if_neg hu]
          constructor
          · intro hm
            exact (hwf.2 u x).mp ((weakUnlink_mem s w hwf u x).mp hm).2
          · intro hp
            exact (weakUnlink_mem s w hwf u x).mpr ⟨hx, (hwf.2 u x).mpr hp⟩
  | none =>
    dsimp only
    constructor
    · exact weakUnlink_nodup s w hwf
    · intro u x
      dsimp only
      by_cases hx : x = w
      · subst hx
        rw [if_pos rfl]
        constructor
        · intro hm
          exact absurd ((weakUnlink_mem s x hwf u x).mp hm).1 (by simp)
        · intro he
          exact Option.noConfusion he
      · rw [if_neg hx, weakUnlink_ptr]
        constructor
        · intro hm
          exact (hwf.2 u x).mp ((weakUnlink_mem s w hwf u x).mp hm).2
        · intro hp
          exact (weakUnlink_mem s w hwf u x).mpr ⟨hx, (hwf.2 u x).mpr hp⟩

theorem weakReset_none_ptr [DecidableEq ω] [DecidableEq τ]
    (s : WeakState ω τ) (w x : ω) :
    (weakReset s w none).ptr x = if x = w then none else s.ptr x := by
  unfold weakReset
  dsimp only
  rw [weakUnlink_ptr]

theorem weakReset_none_weakList_head [DecidableEq ω] [DecidableEq τ]
    (s : WeakState ω τ) (t : τ) (w : ω) (rest : List ω)
    (hl : s.weakList t = w :: rest) (hp : s.ptr w = some t) :
    (weakReset s w none).weakList t = rest ∧
    (∀ u, u ≠ t → (weakReset s w none).weakList u = s.weakList u) := by
  unfold weakReset weakUnlink
  rw [hp]
  dsimp only
  constructor
  · rw [if_pos rfl, hl, List.erase_cons_head]
  · intro u hu
    rw [if_neg hu]

theorem destroyLoop_spec [DecidableEq ω] [DecidableEq τ] (t : τ) :
    ∀ (fuel : Nat) (s : WeakState ω τ), WFWeak s →
      (s.weakList t).length ≤ fuel →
      (∀ w, s.ptr w = some t → (destroyLoop t fuel s).ptr w = none) ∧
      (∀ w, s.ptr w ≠ some t → (destroyLoop t fuel s).ptr w = s.ptr w) ∧
      (destroyLoop t fuel s).weakList t = [] ∧
      (∀ u, u ≠ t → (destroyLoop t fuel s).weakList u = s.weakList u)
  | 0, s, hwf, hn => by
    have hempty : s.weakList t = [] :=
      List.length_eq_zero.mp (by omega)
    refine ⟨?_, fun w _ => rfl, hempty, fun u _ => rfl⟩
    intro w hw
    have hm := (hwf.2 t w).mpr hw
    rw [hempty] at hm
    exact absurd hm (List.not_mem_nil w)
  | fuel + 1, s, hwf, hn => by
    rw [destroyLoop]
    split
    · rename_i hl
      refine ⟨?_, fun w _ => rfl, hl, fun u _ => rfl⟩
      intro w hw
      have hm := (hwf.2 t w).mpr hw
      rw [hl] at hm
      exact absurd hm (List.not_mem_nil w)
    · rename_i w rest hl
      have hp : s.ptr w = some t :=
        (hwf.2 t w).mp (by rw [hl]; exact List.mem_cons_self w rest)
      have hwf2 : WFWeak (weakReset s w none) := weakReset_WF s w none hwf
      have hlist := weakReset_none_weakList_head s t w rest hl hp
      have hlen2 : ((weakReset s w none).weakList t).length ≤ fuel := by
        rw [hlist.1]
        have hn2 := hn
        rw [hl] at hn2
        simp only [List.length_cons] at hn2
        omega
      have IH := destroyLoop_spec t fuel (weakReset s w none) hwf2 hlen2
      refine ⟨?_, ?_, IH.2.2.1, ?_⟩
      · intro x hx
        by_cases hxw : x = w
        · subst hxw
          have hnone : (weakReset s x none).ptr x = none := by
            rw [weakReset_none_ptr, if_pos rfl]
          rw [IH.2.1 x (by rw [hnone]; simp), hnone]
        · have hsame : (weakReset s w none).ptr x = some t := by
            rw [weakReset_none_ptr, if_neg hxw]
            exact hx
          exact IH.1 x hsame
      · intro x hx
        have hxw : x ≠ w := by
          rintro rfl
          exact hx hp
        have hsame : (weakReset s w none).ptr x = s.ptr x := by
          rw [weakReset_none_ptr, if_neg hxw]
        rw [IH.2.1 x (by rw [hsame]; exact hx), hsame]
      · intro u hu
        rw [IH.2.2.2 u hu, hlist.2 u hu]

/-- C10: destroying a weak target (running ~weak_target, which repeatedly
resets the head of the intrusive weak list) nulls exactly the weakptrs
still linked in that target's list - those whose m_ptr is the target -
leaves every weakptr pointing at a different target or at null unchanged,
empties the target's list and no other list; and well-formedness of the
intrusive lists is preserved by arbitrary weakptr reassignments across
targets, so the hypothesis holds in every state reachable by resets. -/
theorem c10_weak_target_destroy [DecidableEq ω] [DecidableEq τ]
    (s : WeakState ω τ) (t : τ) (h : WFWeak s) :
    (∀ w, s.ptr w = some t → (destroyTarget s t).ptr w = none) ∧
    (∀ w, s.ptr w ≠ some t → (destroyTarget s t).ptr w = s.ptr w) ∧
    (destroyTarget s t).weakList t = [] ∧
    (∀ u, u ≠ t → (destroyTarget s t).weakList u = s.weakList u) ∧
    (∀ w p, WFWeak (weakReset s w p)) := by
  have hs := destroyLoop_spec t ((s.weakList t).length) s h (le_refl _)
  exact ⟨hs.1, hs.2.1, hs.2.2.1, hs.2.2.2, fun w p => weakReset_WF s w p h⟩

/-- Witness for c10_weak_target_destroy at a concrete two-target state. -/
theorem c10_weak_target_destroy_witness :
    WFWeak wExample ∧
    ((∀ w, wExample.ptr w = some 0 →
        (destroyTarget wExample 0).ptr w = none) ∧
    (∀ w, wExample.ptr w ≠ some 0 →
        (destroyTarget wExample 0).ptr w = wExample.ptr w) ∧
    (destroyTarget wExample 0).weakList 0 = [] ∧
    (∀ u, u ≠ 0 →
        (destroyTarget wExample 0).weakList u = wExample.weakList u) ∧
    (∀ w p, WFWeak (weakReset wExample w p))) :=
  have hwf : WFWeak wExample := by
    constructor
    · intro u
      by_cases h0 : u = 0 <;> by_cases h1 : u = 1 <;>
        simp [wExample, h0, h1]
    · intro u x
      by_cases hx0 : x = 0 <;> by_cases hx1 : x = 1 <;>
        by_cases hu0 : u = 0 <;> by_cases hu1 : u = 1 <;>
        simp [wExample, hx0, hx1, hu0, hu1] <;> omega
  ⟨hwf, c10_weak_target_destroy wExample 0 hwf⟩

end Spec2Proof
